import Mathlib

/-!
Shallow embedding of the object-reconciliation and import logic of the
qs-emergo-app-object-importer extension.

The JavaScript sources are embedded as executable Lean definitions:
JS objects become structures (with a `rest` component standing for the
fields the code never inspects, so that `JSON.stringify` comparison of
two objects becomes structural equality), JS arrays become lists,
promise-returning fallible operations become `Except`-valued functions,
and the mutable app-connection cache becomes explicit state passing.
-/

namespace AppObjectImporter

/-- The object types handled by the extension (`item.type`). -/
inductive ItemType where
  | script
  | sheet
  | dimension
  | measure
  | masterObject
  | alternateState
  | variable_
  deriving DecidableEq, Repr

/-- One entry of `sheet.properties.cells`: the `name` field and the rest of
the cell object (opaque, serialized). -/
structure Cell where
  name : String
  rest : String
  deriving DecidableEq, Repr

/-- The property payload of an item (`item.properties`).  It carries every
field the reconciliation code reads, plus `rest` for the remainder of the
JS object, so that `JSON.stringify` equality of two property objects is
structural equality of this record. -/
structure ItemProps where
  qInfo : String
  qMeta : String
  qIsScriptCreated : Bool
  title : String
  visualization : String
  qName : String
  qDefinition : String
  qDim : String
  qMeasure : String
  cells : List Cell
  rest : String
  deriving DecidableEq, Repr

/-- A normalized app-object item as produced by the collectors. -/
structure Item where
  type : ItemType
  id : String
  label : String
  scriptValue : String
  searchTerms : String
  props : ItemProps
  deriving DecidableEq, Repr

/-- The current app's collected objects (`currAppObjects`), one list per
object type. -/
structure DestState where
  scripts : List Item
  sheets : List Item
  dimensions : List Item
  measures : List Item
  masterObjects : List Item
  alternateStates : List Item
  vars : List Item
  deriving DecidableEq, Repr

/-- `_.omit(properties, "qInfo")` followed by `JSON.stringify`: the
comparison key used for masterObject updatability. -/
def maskMasterObject (p : ItemProps) : ItemProps :=
  { p with qInfo := "" }

/-- `_.omit(properties, "qInfo")` with every cell's `name` omitted: the
comparison key used for sheet updatability. -/
def maskSheet (p : ItemProps) : ItemProps × List String :=
  ({ p with qInfo := "", cells := [] }, p.cells.map Cell.rest)

/-- `_.omit(properties, ["qInfo", "qMeta", "qIsScriptCreated"])`: the
comparison key used for variable updatability. -/
def maskVariable (p : ItemProps) : ItemProps :=
  { p with qInfo := "", qMeta := "", qIsScriptCreated := false }

/-- `doesItemExistInCurrentApp` from the extension controller: per-type
existence test of an item against the current app's objects. -/
def doesItemExistInCurrentApp (st : DestState) (item : Item) : Bool :=
  match item.type with
  | .script =>
      st.scripts.any fun a => a.scriptValue == item.scriptValue
  | .sheet =>
      st.sheets.any fun a => a.props.title == item.props.title
  | .dimension =>
      st.dimensions.any fun a => a.props.title == item.props.title
  | .measure =>
      st.measures.any fun a => a.props.title == item.props.title
  | .masterObject =>
      st.masterObjects.any fun a =>
        a.props.title == item.props.title
          && a.props.visualization == item.props.visualization
          && a.searchTerms == item.searchTerms
  | .alternateState =>
      st.alternateStates.any fun a => a.id == item.id
  | .variable_ =>
      st.vars.any fun a =>
        a.props.qName == item.props.qName
          && a.props.qDefinition == item.props.qDefinition

/-- `isItemImportableInCurrentApp` from the extension controller: states and
variables are blocked on name collision, all other types default to `true`. -/
def isItemImportableInCurrentApp (st : DestState) (item : Item) : Bool :=
  match item.type with
  | .alternateState =>
      st.alternateStates.all fun a => a.id != item.id
  | .variable_ =>
      st.vars.all fun a => a.props.qName != item.props.qName
  | _ => true

/-- `getTargetIdIfItemIsUpdatableInCurrentApp`: the id of the first current
object for which the item is updatable, or `""` when none matches. -/
def getTargetIdIfItemIsUpdatableInCurrentApp (st : DestState) (item : Item) : String :=
  let ids : List String :=
    match item.type with
    | .script =>
        (st.scripts.filter fun a =>
          a.label == item.label && a.scriptValue != item.scriptValue).map
          fun a => a.label
    | .sheet =>
        (st.sheets.filter fun a =>
          a.props.title == item.props.title
            && !(decide (maskSheet a.props = maskSheet item.props))).map
          fun a => a.id
    | .dimension =>
        (st.dimensions.filter fun a =>
          a.props.title == item.props.title
            && a.props.qDim != item.props.qDim).map
          fun a => a.id
    | .measure =>
        (st.measures.filter fun a =>
          a.props.title == item.props.title
            && a.props.qMeasure != item.props.qMeasure).map
          fun a => a.id
    | .masterObject =>
        (st.masterObjects.filter fun a =>
          a.props.title == item.props.title
            && !(decide (maskMasterObject a.props = maskMasterObject item.props))).map
          fun a => a.id
    | .alternateState => []
    | .variable_ =>
        (st.vars.filter fun a =>
          a.props.qName == item.props.qName
            && !(decide (maskVariable a.props = maskVariable item.props))).map
          fun a => a.id
  match ids with
  | [] => ""
  | x :: _ => x

/-- The per-item status flags (`item.status`) as initialized by `prepareItem`
and mutated by the executor. -/
structure Status where
  selected : Bool
  exists' : Bool
  importable : Bool
  importing : Bool
  imported : Bool
  importFailed : Bool
  updatable : Bool
  updating : Bool
  updated : Bool
  updateFailed : Bool
  deriving DecidableEq, Repr

/-- The status block assigned to an item by `prepareItem`. -/
def prepareItemStatus (st : DestState) (item : Item) : Status :=
  { selected := false
    exists' := doesItemExistInCurrentApp st item
    importable := isItemImportableInCurrentApp st item
    importing := false
    imported := false
    importFailed := false
    updatable := getTargetIdIfItemIsUpdatableInCurrentApp st item != ""
    updating := false
    updated := false
    updateFailed := false }

/-- Sample master-object properties used to instantiate the classification
theorems on concrete input. -/
def sampleMoProps : ItemProps :=
  { qInfo := "i1", qMeta := "", qIsScriptCreated := false, title := "KPI"
    visualization := "barchart", qName := "", qDefinition := "", qDim := ""
    qMeasure := "", cells := [], rest := "color:red" }

/-- A concrete source master-object item. -/
def moSourceItem : Item :=
  { type := .masterObject, id := "src1", label := "KPI", scriptValue := ""
    searchTerms := "Sales ", props := sampleMoProps }

/-- A concrete destination master object: same title, visualization type and
search terms as `moSourceItem`, different id and remaining properties. -/
def moDestItem : Item :=
  { moSourceItem with
    id := "dst1"
    props := { sampleMoProps with qInfo := "i2", rest := "color:blue" } }

/-- A concrete destination app state holding only `moDestItem`. -/
def moDestState : DestState :=
  { scripts := [], sheets := [], dimensions := [], measures := []
    masterObjects := [moDestItem], alternateStates := [], vars := [] }

/-- The decimal digit characters of `n`, most significant first; the list
produced by `Nat.repr`. -/
def decimalDigits (n : Nat) : List Char :=
  if _h : n < 10 then [Nat.digitChar n]
  else decimalDigits (n / 10) ++ [Nat.digitChar (n % 10)]
decreasing_by exact Nat.div_lt_self (by omega) (by omega)

/-- Numeric value of a decimal digit character. -/
def digitVal (c : Char) : Nat :=
  c.toNat - 48

/-- Decode a list of decimal digit characters back to a number. -/
def digitsVal (l : List Char) : Nat :=
  l.foldl (fun a c => 10 * a + digitVal c) 0

/-- JS `String.prototype.split` with a non-empty separator, on character
lists.  The fuel argument (always instantiated with more than the input
length) keeps the recursion structural. -/
def splitOnCharsFuel (sep : List Char) : Nat → List Char → List Char → List (List Char)
  | 0, cs, acc => [acc.reverse ++ cs]
  | fuel + 1, cs, acc =>
      match cs with
      | [] => [acc.reverse]
      | c :: rest =>
          if sep.isPrefixOf (c :: rest) then
            acc.reverse :: splitOnCharsFuel sep fuel ((c :: rest).drop sep.length) []
          else
            splitOnCharsFuel sep fuel rest (c :: acc)

/-- JS `s.split(sep)` for a non-empty separator. -/
def splitOnString (s sep : String) : List String :=
  (splitOnCharsFuel sep.data (s.data.length + 1) s.data []).map
    fun l => String.mk l

/-- `a.split("\r\n")[0]`: the first line of a script fragment, i.e. its tab
title. -/
def firstLine (a : String) : String :=
  (splitOnString a "\r\n").headD ""

/-- The tab titles of a script blob, as computed in `script.add`:
`data.qScript.split("///$tab ").filter(Boolean)` mapped to each fragment's
first line. -/
def parseScriptTabs (qScript : String) : List String :=
  ((splitOnString qScript "///$tab ").filter fun a => a != "").map firstLine

/-- The `i`-th tab title candidate tried by `script.add`: the requested
title itself, then `"title (1)"`, `"title (2)"`, and so on. -/
def scriptTabCandidate (base : String) : Nat → String
  | 0 => base
  | n + 1 => base ++ " (" ++ Nat.repr (n + 1) ++ ")"

/-- The collision while-loop of `script.add`, with enough fuel to try one
more candidate than there are existing tabs. -/
def scriptTabLoop (tabs : List String) (base : String) : Nat → Nat → String
  | 0, i => scriptTabCandidate base i
  | fuel + 1, i =>
      if scriptTabCandidate base i ∈ tabs then
        scriptTabLoop tabs base fuel (i + 1)
      else scriptTabCandidate base i

/-- The tab title actually used by `script.add` for a new section. -/
def scriptAddFreshTab (tabs : List String) (base : String) : String :=
  scriptTabLoop tabs base (tabs.length + 1) 0

/-- `script.add`: the new script written by `setScript` — the old script
with the new section (under a collision-free tab title) appended. -/
def scriptAdd (qScript propsTab propsQScript : String) : String :=
  let tabs := parseScriptTabs qScript
  let tab := scriptAddFreshTab tabs propsTab
  qScript ++ ("///$tab " ++ tab ++ "\r\n" ++ propsQScript)

/-- The section list built by `script.update`: for each marker-delimited
fragment, its tab title and its reconstructed section text. -/
def parseScriptSections (qScript : String) : List (String × String) :=
  ((splitOnString qScript "///$tab ").filter fun a => a != "").map
    fun a => (firstLine a, "///$tab " ++ a)

/-- `sections.reduce(function(a, b) { return a.concat(b.section); }, "")`. -/
def joinSections (sections : List (String × String)) : String :=
  sections.foldl (fun a b => a ++ b.2) ""

/-- `script.update`: replace the first section whose tab title equals
`targetId`, or reject (without writing) when no section matches. -/
def scriptUpdate (qScript targetId propsQScript : String) : Except String String :=
  match (parseScriptSections qScript).findIdx? (fun a => a.1 == targetId) with
  | some target =>
      .ok (joinSections ((parseScriptSections qScript).set target
        (targetId, "///$tab " ++ targetId ++ "\r\n" ++ propsQScript)))
  | none =>
      .error ("Script section not updated: could not find section with title '"
        ++ targetId ++ "'")

/-- The part of an object's property payload that `sanitizeObjectData`
operates on: the `qMetaDef` block as a key/value list, the generated
`qMeta` block (opaque), and the untouched remainder of the object. -/
structure QData where
  qMetaDef : List (String × String)
  qMeta : Option String
  rest : List (String × String)
  deriving DecidableEq, Repr

/-- The publish-related keys omitted from `qMetaDef` by
`sanitizeObjectData`. -/
def publishMetaKeys : List String :=
  ["createdDate", "modifiedDate", "published", "publishTime", "approved",
   "owner", "sourceObject", "draftObject", "privileges"]

/-- `sanitizeObjectData`: `_.omit` the publish keys from `qMetaDef` and
`_.omit` the whole `qMeta` block. -/
def sanitizeObjectData (d : QData) : QData :=
  { d with
    qMetaDef := d.qMetaDef.filter fun kv => !(publishMetaKeys.contains kv.1)
    qMeta := none }

/-- A variable's properties: the fields the importer reads plus the
sanitizable metadata block. -/
structure VarProps where
  qId : String
  qName : String
  qDefinition : String
  qIsScriptCreated : Bool
  meta : QData
  deriving DecidableEq, Repr

/-- `sanitizeObjectData` applied to a variable's property object (it only
touches the metadata block). -/
def sanitizeVarProps (p : VarProps) : VarProps :=
  { p with meta := sanitizeObjectData p.meta }

/-- `variable.add`: drop the script-created flag (`delete
props.qIsScriptCreated`), sanitize, and `createVariableEx`.  The engine is
modelled as a variable list that rejects duplicate names, matching the
source comment that the action may be rejected because the variable
already exists based on name. -/
def variableAdd (store : List VarProps) (props : VarProps) :
    Except String (List VarProps) :=
  let p := sanitizeVarProps { props with qIsScriptCreated := false }
  if store.any fun v => v.qName == p.qName then
    .error ("Variable '" ++ p.qName ++ "' already exists")
  else
    .ok (store ++ [p])

/-- `variable.update`: look the target up by id when `options.targetId` is
given, else by name; on success keep the target's id and script-created
flag and overwrite its properties; when the lookup fails, fall back to
`variable.add`. -/
def variableUpdate (store : List VarProps) (props : VarProps)
    (targetId : Option String) : Except String (List VarProps) :=
  let found : Option VarProps :=
    match targetId with
    | some tid => store.find? fun v => v.qId == tid
    | none => store.find? fun v => v.qName == props.qName
  match found with
  | some target =>
      let p := { props with
        qId := target.qId
        qIsScriptCreated := target.qIsScriptCreated }
      .ok (store.map fun v => if v.qId == target.qId then p else v)
  | none => variableAdd store props

/-- `updateSingleItem` from the modal controller: the status flags after
running an updater whose outcome is `result`, starting from status `st`. -/
def updateSingleItem {α : Type} (st : Status) (result : Except String α) : Status :=
  if !st.updated && !st.updateFailed && st.updatable then
    match result with
    | .ok _ =>
        { st with exists' := true, updating := false, updated := true
                  updatable := false }
    | .error _ =>
        { st with updating := false, updateFailed := true }
  else st

/-- A concrete variable named `"vToday"` used to instantiate the variable
update fallback on concrete input. -/
def vTodayProps : VarProps :=
  { qId := "v1", qName := "vToday", qDefinition := "Today()"
    qIsScriptCreated := false
    meta := { qMetaDef := [("title", "vToday")], qMeta := none, rest := [] } }

/-- A status block of an item whose update is about to run: updatable, not
yet updated, not failed. -/
def pendingUpdateStatus : Status :=
  { selected := false, exists' := false, importable := true, importing := false
    imported := false, importFailed := false, updatable := true
    updating := false, updated := false, updateFailed := false }

/-- A sheet's properties: the `rank` field read by the importer plus the
sanitizable metadata block. -/
structure SheetProps where
  rank : Nat
  meta : QData
  deriving DecidableEq, Repr

/-- Import options passed to `sheet.add`. -/
structure SheetImportOptions where
  targetId : Option String
  sheetsMaxRank : Nat
  deriving DecidableEq, Repr

/-- `currAppObjects.sheet.reduce(function(a, b) { return Math.max(a,
b.properties.rank); }, 0)` as computed by `$scope.importItem`. -/
def sheetsMaxRank (destSheets : List SheetProps) : Nat :=
  destSheets.foldl (fun a b => max a b.rank) 0

/-- The options `$scope.importItem` builds for a plain (non-update) sheet
import. -/
def importItemSheetOptions (destSheets : List SheetProps) : SheetImportOptions :=
  { targetId := none, sheetsMaxRank := sheetsMaxRank destSheets }

/-- The sheet properties written by `sheet.add`: when creating a new sheet
(`options.targetId` absent) and `options.sheetsMaxRank` is truthy, the rank
is pushed past the end of the list; everything else is written as-is. -/
def sheetAddWrittenProps (props : SheetProps) (options : SheetImportOptions) :
    SheetProps :=
  match options.targetId with
  | some _ => props
  | none =>
      if options.sheetsMaxRank ≠ 0 then
        { props with rank := options.sheetsMaxRank + 1 }
      else props

/-- The properties written when a sheet item is imported through
`$scope.importItem` into an app whose sheets are `destSheets`. -/
def importSheetWrittenProps (destSheets : List SheetProps) (props : SheetProps) :
    SheetProps :=
  sheetAddWrittenProps props (importItemSheetOptions destSheets)

/-- A destination sheet of rank 0. -/
def rank0Sheet : SheetProps :=
  { rank := 0, meta := { qMetaDef := [("title", "S0")], qMeta := none, rest := [] } }

/-- A source sheet of rank 5. -/
def rank5Sheet : SheetProps :=
  { rank := 5, meta := { qMetaDef := [("title", "New")], qMeta := none, rest := [] } }

/-- Three destination sheets with ranks 0, 1 and 2. -/
def rankedSheets : List SheetProps :=
  [{ rank := 0, meta := { qMetaDef := [], qMeta := none, rest := [] } },
   { rank := 1, meta := { qMetaDef := [], qMeta := none, rest := [] } },
   { rank := 2, meta := { qMetaDef := [], qMeta := none, rest := [] } }]

/-- A source sheet still carrying server-publish metadata. -/
def publishedSheetProps : SheetProps :=
  { rank := 1
    meta := { qMetaDef := [("title", "S"), ("published", "true")]
              qMeta := some "serverMeta", rest := [] } }

/-- The argument accepted by `openApp`: an app identifier string, or an
already-opened app object (duck-typed in the source by its `id` field). -/
inductive OpenAppArg where
  | byId (appId : String)
  | byApp (ref : Nat)
  deriving DecidableEq, Repr

/-- The `openApp` connection cache: the current app's id and resolved
promise, the `_apps` map from identifier to promise reference, a fresh
promise-reference counter, and the list of engine `qlik.openApp` calls
issued so far.  Promises are identified by reference (`Nat`), so two calls
return the identical promise exactly when they return the same number. -/
structure AppCache where
  currAppId : String
  currAppRef : Nat
  entries : List (String × Nat)
  nextRef : Nat
  opens : List String
  deriving DecidableEq, Repr

/-- `openApp` from `util/app-info.js` (the importer module carries an
identical copy): reject on an empty identifier (a fresh rejected promise),
pass an app object through (`$q.resolve`, a fresh promise), seed the cache
with the current app, and open each identifier at most once, caching and
returning the same promise thereafter. -/
def openApp (c : AppCache) (arg : OpenAppArg) : Nat × AppCache :=
  match arg with
  | .byApp _ => (c.nextRef, { c with nextRef := c.nextRef + 1 })
  | .byId appId =>
      if appId = "" then
        (c.nextRef, { c with nextRef := c.nextRef + 1 })
      else
        let c1 :=
          if (List.lookup c.currAppId c.entries).isSome then c
          else
            { c with
              entries := c.entries ++ [(c.currAppId, c.nextRef)]
              nextRef := c.nextRef + 1 }
        match List.lookup appId c1.entries with
        | some r => (r, c1)
        | none =>
            (c1.nextRef,
              { c1 with
                entries := c1.entries ++ [(appId, c1.nextRef)]
                nextRef := c1.nextRef + 1
                opens := c1.opens ++ [appId] })

/-- One attempt of the regex `(<|,)field={([^}]+)(}>|},)` at the head of
`cs`: an opener `<` or `,`, the literal field name, `={`, then the greedy
non-`}` capture (which must be non-empty), then `}` followed by `>` or `,`.
Returns the captured group. -/
def matchSelBlockAt (field cs : List Char) : Option (List Char) :=
  match cs with
  | [] => none
  | c :: rest =>
      if (c = '<' ∨ c = ',') ∧ (field ++ ['=', '{']).isPrefixOf rest = true then
        let afterOpen := rest.drop (field.length + 2)
        let content := afterOpen.takeWhile fun x => x ≠ '}'
        match afterOpen.drop content.length with
        | b :: d :: _ =>
            if content ≠ [] ∧ b = '}' ∧ (d = '>' ∨ d = ',') then some content
            else none
        | _ => none
      else none

/-- `set.match(regex)` for the selection-block regex: the capture group of
the leftmost match, scanning start positions left to right. -/
def findSelBlock (field : List Char) : List Char → Option (List Char)
  | [] => none
  | c :: rest =>
      match matchSelBlockAt field (c :: rest) with
      | some g => some g
      | none => findSelBlock field rest

/-- `a.replace(/^'(.*)'$/, "$1")`: strip surrounding single quotes when the
whole value is quoted (JS `.` does not cross line terminators). -/
def stripSurroundingQuotes (s : String) : String :=
  let cs := s.data
  if 2 ≤ cs.length ∧ cs.headD ' ' = '\'' ∧ cs.getLast? = some '\'' ∧
      ((cs.drop 1).dropLast.all fun c =>
        !(c = '\n' ∨ c = '\r' ∨ c = Char.ofNat 0x2028 ∨ c = Char.ofNat 0x2029))
        = true then
    String.mk ((cs.drop 1).dropLast)
  else s

/-- `getValuesFromSetAnalysis`: extract the listed values of `fieldName`
from a set-analysis expression.  A `none` result models the `TypeError`
thrown when `set.match(regex)` returns `null` and the code dereferences
`matches[2]` — that exception escapes to the bookmark-import caller. -/
def getValuesFromSetAnalysis (set fieldName : String) : Option (List String) :=
  (findSelBlock fieldName.data set.data).map fun g =>
    (splitOnString (String.mk g) ",").map stripSurroundingQuotes

/-- A selection block for `field` present at the head of `cs`, as the
regex pattern describes it. -/
def HeadSelBlock (field cs : List Char) : Prop :=
  ∃ (content suf : List Char) (o d : Char),
    cs = o :: (field ++ '=' :: '{' :: (content ++ '}' :: d :: suf)) ∧
    (o = '<' ∨ o = ',') ∧ content ≠ [] ∧ (∀ x ∈ content, x ≠ '}') ∧
    (d = '>' ∨ d = ',')

/-- The set expression contains a selection block for `field` somewhere:
the precondition under which `getValuesFromSetAnalysis` is total. -/
def HasSelectionBlock (set field : List Char) : Prop :=
  ∃ pre tail2, set = pre ++ tail2 ∧ HeadSelBlock field tail2

end AppObjectImporter

namespace AppObjectImporter

/-- C1: the importable flag is false exactly for an alternate state whose
name (id) already exists or a variable whose name already exists; every
other type is always importable. -/
theorem importable_iff_no_name_collision (st : DestState) (item : Item) :
    isItemImportableInCurrentApp st item =
      !((item.type == ItemType.alternateState
            && st.alternateStates.any fun a => a.id == item.id)
        || (item.type == ItemType.variable_
            && st.vars.any fun a => a.props.qName == item.props.qName)) := by
  cases h : item.type <;>
    simp [isItemImportableInCurrentApp, h, List.all_eq_not_any_not, bne,
      Bool.not_not,
      show (ItemType.alternateState == ItemType.variable_) = false from rfl,
      show (ItemType.variable_ == ItemType.alternateState) = false from rfl]

end AppObjectImporter

namespace AppObjectImporter

/-- C2: for a masterObject item that matches an existing destination master
object on title, visualization type and search terms while its full
properties (minus `qInfo`) differ, the three status flags are computed
independently: `exists`, `importable` and `updatable` are all true at once. -/
theorem masterObject_flags_independent (st : DestState) (item a : Item)
    (htype : item.type = ItemType.masterObject)
    (hdest : st.masterObjects = [a])
    (htitle : a.props.title = item.props.title)
    (hviz : a.props.visualization = item.props.visualization)
    (hsearch : a.searchTerms = item.searchTerms)
    (hdiff : maskMasterObject a.props ≠ maskMasterObject item.props)
    (hid : a.id ≠ "") :
    (prepareItemStatus st item).exists' = true ∧
      (prepareItemStatus st item).importable = true ∧
      (prepareItemStatus st item).updatable = true := by
  refine ⟨?_, ?_, ?_⟩ <;>
    simp [prepareItemStatus, doesItemExistInCurrentApp,
      isItemImportableInCurrentApp, getTargetIdIfItemIsUpdatableInCurrentApp,
      htype, hdest, htitle, hviz, hsearch, hdiff, hid, List.filter, bne]

/-- Witness for C2 at a concrete master-object pair. -/
theorem masterObject_flags_independent_witness :
    (prepareItemStatus moDestState moSourceItem).exists' = true ∧
      (prepareItemStatus moDestState moSourceItem).importable = true ∧
      (prepareItemStatus moDestState moSourceItem).updatable = true :=
  masterObject_flags_independent moDestState moSourceItem moDestItem rfl rfl
    rfl rfl rfl (by decide) (by decide)

end AppObjectImporter

namespace AppObjectImporter

theorem decimalDigits_lt (n : Nat) (h : n < 10) :
    decimalDigits n = [Nat.digitChar n] := by
  unfold decimalDigits
  simp [h]

theorem decimalDigits_ge (n : Nat) (h : ¬ n < 10) :
    decimalDigits n = decimalDigits (n / 10) ++ [Nat.digitChar (n % 10)] := by
  conv_lhs => unfold decimalDigits
  simp [h]

theorem digitVal_digitChar (d : Nat) (hd : d < 10) :
    digitVal (Nat.digitChar d) = d := by
  interval_cases d <;> rfl

theorem digitsVal_append_singleton (l : List Char) (c : Char) :
    digitsVal (l ++ [c]) = 10 * digitsVal l + digitVal c := by
  simp [digitsVal, List.foldl_append]

theorem digitsVal_decimalDigits (n : Nat) : digitsVal (decimalDigits n) = n := by
  induction n using Nat.strong_induction_on with
  | _ n ih =>
    by_cases h : n < 10
    · rw [decimalDigits_lt n h]
      simp [digitsVal, digitVal_digitChar n h]
    · rw [decimalDigits_ge n h, digitsVal_append_singleton,
        ih (n / 10) (by omega), digitVal_digitChar (n % 10) (by omega)]
      omega

theorem toDigitsCore_eq_decimalDigits :
    ∀ (f n : Nat) (acc : List Char), n < f →
      Nat.toDigitsCore 10 f n acc = decimalDigits n ++ acc := by
  intro f
  induction f with
  | zero => intro n acc h; omega
  | succ f ih =>
    intro n acc h
    by_cases h10 : n / 10 = 0
    · have hn : n < 10 := by omega
      simp [Nat.toDigitsCore, h10, decimalDigits_lt n hn, Nat.mod_eq_of_lt hn]
    · have hn : ¬ n < 10 := by omega
      have hlt : n / 10 < f := by omega
      simp [Nat.toDigitsCore, h10, ih (n / 10) _ hlt, decimalDigits_ge n hn]

theorem repr_data (n : Nat) : (Nat.repr n).data = decimalDigits n := by
  unfold Nat.repr Nat.toDigits
  rw [toDigitsCore_eq_decimalDigits (n + 1) n [] (by omega)]
  simp [List.asString]

theorem natRepr_injective : Function.Injective Nat.repr := by
  intro m n h
  have hd : decimalDigits m = decimalDigits n := by
    rw [← repr_data, ← repr_data, h]
  have hv := congrArg digitsVal hd
  rwa [digitsVal_decimalDigits, digitsVal_decimalDigits] at hv

theorem decimalDigits_ne_nil (n : Nat) : decimalDigits n ≠ [] := by
  by_cases h : n < 10
  · rw [decimalDigits_lt n h]; simp
  · rw [decimalDigits_ge n h]; simp

end AppObjectImporter

namespace AppObjectImporter

theorem scriptTabCandidate_injective (base : String) :
    Function.Injective (scriptTabCandidate base) := by
  have hlen : ∀ k : Nat, 0 < (Nat.repr k).length := by
    intro k
    show 0 < (Nat.repr k).data.length
    rw [repr_data]
    exact List.length_pos.mpr (decimalDigits_ne_nil k)
  intro m n h
  match m, n with
  | 0, 0 => rfl
  | 0, k + 1 =>
      exfalso
      have hl := congrArg String.length h
      simp only [scriptTabCandidate, String.length_append] at hl
      have := hlen (k + 1)
      omega
  | k + 1, 0 =>
      exfalso
      have hl := congrArg String.length h
      simp only [scriptTabCandidate, String.length_append] at hl
      have := hlen (k + 1)
      omega
  | k + 1, j + 1 =>
      have hd := congrArg String.data h
      simp only [scriptTabCandidate, String.data_append, List.append_assoc] at hd
      have h1 := List.append_cancel_left hd
      have h2 := List.append_cancel_left h1
      have h3 := List.append_cancel_right h2
      have : Nat.repr (k + 1) = Nat.repr (j + 1) := String.ext h3
      have := natRepr_injective this
      omega

theorem exists_fresh_candidate (tabs : List String) (base : String) :
    ∃ k, k ≤ tabs.length + 1 ∧ scriptTabCandidate base k ∉ tabs := by
  by_contra hall
  push_neg at hall
  have hsub : (Finset.range (tabs.length + 2)).image (scriptTabCandidate base)
      ⊆ tabs.toFinset := by
    intro x hx
    simp only [Finset.mem_image, Finset.mem_range] at hx
    obtain ⟨k, hk, rfl⟩ := hx
    exact List.mem_toFinset.mpr (hall k (by omega))
  have hcard := Finset.card_le_card hsub
  rw [Finset.card_image_of_injective _ (scriptTabCandidate_injective base),
    Finset.card_range] at hcard
  have := tabs.toFinset_card_le
  omega

theorem scriptTabLoop_spec (tabs : List String) (base : String) :
    ∀ fuel i, (∃ k, i ≤ k ∧ k ≤ i + fuel ∧ scriptTabCandidate base k ∉ tabs) →
      (∀ j, j < i → scriptTabCandidate base j ∈ tabs) →
      ∃ n, scriptTabLoop tabs base fuel i = scriptTabCandidate base n ∧
        scriptTabCandidate base n ∉ tabs ∧
        ∀ m, m < n → scriptTabCandidate base m ∈ tabs := by
  intro fuel
  induction fuel with
  | zero =>
      intro i hex hinv
      obtain ⟨k, hik, hk0, hkfree⟩ := hex
      have hki : k = i := by omega
      subst hki
      exact ⟨k, rfl, hkfree, hinv⟩
  | succ fuel ih =>
      intro i hex hinv
      by_cases hc : scriptTabCandidate base i ∈ tabs
      · have hrec := ih (i + 1)
          (by
            obtain ⟨k, hik, hkb, hkfree⟩ := hex
            refine ⟨k, ?_, by omega, hkfree⟩
            rcases Nat.eq_or_lt_of_le hik with rfl | hlt
            · exact absurd hc hkfree
            · omega)
          (by
            intro j hj
            rcases Nat.lt_succ_iff_lt_or_eq.mp hj with hj' | rfl
            · exact hinv j hj'
            · exact hc)
        simpa [scriptTabLoop, hc] using hrec
      · exact ⟨i, by simp [scriptTabLoop, hc], hc, hinv⟩

theorem scriptAddFreshTab_spec (tabs : List String) (base : String) :
    scriptAddFreshTab tabs base ∉ tabs ∧
      ∃ n, scriptAddFreshTab tabs base = scriptTabCandidate base n ∧
        ∀ m, m < n → scriptTabCandidate base m ∈ tabs := by
  obtain ⟨k, hk, hkfree⟩ := exists_fresh_candidate tabs base
  obtain ⟨n, heq, hfree, hmin⟩ :=
    scriptTabLoop_spec tabs base (tabs.length + 1) 0
      ⟨k, Nat.zero_le k, by omega, hkfree⟩ (by intro j hj; omega)
  rw [scriptAddFreshTab, heq]
  exact ⟨hfree, n, rfl, hmin⟩

end AppObjectImporter

namespace AppObjectImporter

/-- C3: `script.add` appends the new section at the end of the script body,
under a tab title that does not collide with any existing tab: the requested
title itself when it is free, otherwise the title with `" (n)"` appended for
the smallest n ≥ 1 that makes it unique. -/
theorem scriptAdd_appends_fresh_minimal_tab (qScript propsTab propsQScript : String) :
    scriptAdd qScript propsTab propsQScript
        = qScript ++ ("///$tab " ++ scriptAddFreshTab (parseScriptTabs qScript) propsTab
            ++ "\r\n" ++ propsQScript) ∧
      scriptAddFreshTab (parseScriptTabs qScript) propsTab ∉ parseScriptTabs qScript ∧
      (propsTab ∉ parseScriptTabs qScript →
        scriptAddFreshTab (parseScriptTabs qScript) propsTab = propsTab) ∧
      (propsTab ∈ parseScriptTabs qScript →
        ∃ n, 1 ≤ n ∧
          scriptAddFreshTab (parseScriptTabs qScript) propsTab
            = propsTab ++ " (" ++ Nat.repr n ++ ")" ∧
          ∀ m, 1 ≤ m → m < n →
            propsTab ++ " (" ++ Nat.repr m ++ ")" ∈ parseScriptTabs qScript) := by
  obtain ⟨hfree, n, heq, hmin⟩ :=
    scriptAddFreshTab_spec (parseScriptTabs qScript) propsTab
  refine ⟨rfl, hfree, ?_, ?_⟩
  · intro hnot
    match n, heq with
    | 0, heq => exact heq
    | k + 1, _ =>
        exact absurd (by simpa [scriptTabCandidate] using hmin 0 (by omega)) hnot
  · intro hmem
    match n, heq with
    | 0, heq =>
        rw [heq] at hfree
        exact absurd hmem hfree
    | k + 1, heq =>
        refine ⟨k + 1, by omega, by simpa [scriptTabCandidate] using heq, ?_⟩
        intro m h1m hmk
        have hm := hmin m hmk
        match m, h1m, hm with
        | j + 1, _, hm => simpa [scriptTabCandidate] using hm

/-- Witness for C3: with existing tabs `["Main", "Main (1)"]`, adding a
section titled `"Main"` picks the minimal fresh suffix, concretely
`"Main (2)"`. -/
theorem scriptAdd_appends_fresh_minimal_tab_witness :
    "Main" ∈ parseScriptTabs "///$tab Main\r\nLOAD A;\r\n///$tab Main (1)\r\nLOAD B;\r\n" ∧
      scriptAddFreshTab
          (parseScriptTabs "///$tab Main\r\nLOAD A;\r\n///$tab Main (1)\r\nLOAD B;\r\n")
          "Main" = "Main (2)" ∧
      (∃ n, 1 ≤ n ∧
        scriptAddFreshTab
            (parseScriptTabs "///$tab Main\r\nLOAD A;\r\n///$tab Main (1)\r\nLOAD B;\r\n")
            "Main" = "Main" ++ " (" ++ Nat.repr n ++ ")" ∧
        ∀ m, 1 ≤ m → m < n →
          "Main" ++ " (" ++ Nat.repr m ++ ")"
            ∈ parseScriptTabs "///$tab Main\r\nLOAD A;\r\n///$tab Main (1)\r\nLOAD B;\r\n") :=
  ⟨by decide, by decide,
    (scriptAdd_appends_fresh_minimal_tab
      "///$tab Main\r\nLOAD A;\r\n///$tab Main (1)\r\nLOAD B;\r\n"
      "Main" "LOAD C;\r\n").2.2.2 (by decide)⟩

end AppObjectImporter

namespace AppObjectImporter

theorem joinSections_foldl (l : List (String × String)) (a : String) :
    l.foldl (fun x b => x ++ b.2) a = a ++ joinSections l := by
  induction l generalizing a with
  | nil => simp [joinSections, String.append_empty]
  | cons hd tl ih =>
      show tl.foldl _ (a ++ hd.2) = _
      rw [ih (a ++ hd.2), String.append_assoc]
      have hcons : joinSections (hd :: tl) = hd.2 ++ joinSections tl := by
        show tl.foldl _ ("" ++ hd.2) = _
        rw [ih ("" ++ hd.2), String.empty_append]
      rw [hcons]

theorem joinSections_cons (b : String × String) (l : List (String × String)) :
    joinSections (b :: l) = b.2 ++ joinSections l := by
  show l.foldl _ ("" ++ b.2) = _
  rw [joinSections_foldl, String.empty_append]

theorem joinSections_append (l₁ l₂ : List (String × String)) :
    joinSections (l₁ ++ l₂) = joinSections l₁ ++ joinSections l₂ := by
  show (l₁ ++ l₂).foldl _ "" = _
  rw [List.foldl_append, joinSections_foldl]
  have : (l₁.foldl (fun x b => x ++ b.2) "") = joinSections l₁ := rfl
  rw [this]

theorem findIdx?_first_match {α : Type} (p : α → Bool) :
    ∀ (pre : List α) (sec : α) (post : List α) (i : Nat),
      (∀ a ∈ pre, p a = false) → p sec = true →
      (pre ++ sec :: post).findIdx? p i = some (i + pre.length) := by
  intro pre
  induction pre with
  | nil =>
      intro sec post i _ hp
      simp [List.findIdx?_cons, hp]
  | cons hd tl ih =>
      intro sec post i h hp
      have hhd : p hd = false := h hd (List.mem_cons_self hd tl)
      simp only [List.cons_append, List.findIdx?_cons, hhd, Bool.false_eq_true,
        if_false]
      rw [ih sec post (i + 1) (fun a ha => h a (List.mem_cons_of_mem hd ha)) hp]
      simp [Nat.add_comm, Nat.add_assoc, Nat.add_left_comm]

theorem findIdx?_no_match {α : Type} (p : α → Bool) :
    ∀ (l : List α) (i : Nat), (∀ a ∈ l, p a = false) →
      l.findIdx? p i = none := by
  intro l
  induction l with
  | nil => intro i _; rfl
  | cons hd tl ih =>
      intro i h
      have hhd : p hd = false := h hd (List.mem_cons_self hd tl)
      simp only [List.findIdx?_cons, hhd, Bool.false_eq_true, if_false]
      exact ih (i + 1) fun a ha => h a (List.mem_cons_of_mem hd ha)

theorem set_append_length {α : Type} (pre : List α) (sec x : α) (post : List α) :
    (pre ++ sec :: post).set pre.length x = pre ++ x :: post := by
  induction pre with
  | nil => rfl
  | cons hd tl ih => simp [List.set, ih]

theorem scriptUpdate_found (qScript targetId propsQScript : String)
    (pre post : List (String × String)) (sec : String × String)
    (hparse : parseScriptSections qScript = pre ++ sec :: post)
    (hpre : ∀ a ∈ pre, a.1 ≠ targetId)
    (hsec : sec.1 = targetId) :
    scriptUpdate qScript targetId propsQScript =
      .ok (joinSections pre ++ ("///$tab " ++ targetId ++ "\r\n" ++ propsQScript)
        ++ joinSections post) := by
  unfold scriptUpdate
  rw [hparse,
    findIdx?_first_match (fun a => a.1 == targetId) pre sec post 0
      (fun a ha => by simpa using hpre a ha) (by simpa using hsec)]
  show Except.ok (joinSections ((pre ++ sec :: post).set (0 + pre.length) _)) = _
  rw [Nat.zero_add, set_append_length, joinSections_append, joinSections_cons]
  simp [String.append_assoc]

end AppObjectImporter

namespace AppObjectImporter

/-- C4: `script.update` finds the destination section by exact tab-title
match and rewrites only that section in place — the sections before and
after it reappear verbatim, in order, around the rewritten section — and
when no section carries the target title the result is a rejection and the
script is not written at all. -/
theorem scriptUpdate_rewrites_only_target (qScript targetId propsQScript : String) :
    ((∀ a ∈ parseScriptSections qScript, a.1 ≠ targetId) →
      scriptUpdate qScript targetId propsQScript =
        .error ("Script section not updated: could not find section with title '"
          ++ targetId ++ "'")) ∧
    (∀ pre sec post, parseScriptSections qScript = pre ++ sec :: post →
      (∀ a ∈ pre, a.1 ≠ targetId) → sec.1 = targetId →
      scriptUpdate qScript targetId propsQScript =
        .ok (joinSections pre ++ ("///$tab " ++ targetId ++ "\r\n" ++ propsQScript)
          ++ joinSections post)) := by
  constructor
  · intro hall
    unfold scriptUpdate
    rw [findIdx?_no_match (fun a => a.1 == targetId) (parseScriptSections qScript) 0
      (fun a ha => by simpa using hall a ha)]
  · intro pre sec post hparse hpre hsec
    exact scriptUpdate_found qScript targetId propsQScript pre post sec hparse hpre hsec

/-- Witness for C4 at a concrete two-section script: updating the section
titled `"Other"` rewrites it in place and leaves the `"Main"` section
untouched. -/
theorem scriptUpdate_rewrites_only_target_witness :
    parseScriptSections "///$tab Main\r\nLOAD A;\r\n///$tab Other\r\nLOAD B;\r\n"
        = [("Main", "///$tab Main\r\nLOAD A;\r\n"),
           ("Other", "///$tab Other\r\nLOAD B;\r\n")] ∧
      scriptUpdate "///$tab Main\r\nLOAD A;\r\n///$tab Other\r\nLOAD B;\r\n"
          "Other" "LOAD C;\r\n"
        = .ok (joinSections [("Main", "///$tab Main\r\nLOAD A;\r\n")]
            ++ ("///$tab " ++ "Other" ++ "\r\n" ++ "LOAD C;\r\n")
            ++ joinSections []) :=
  ⟨by decide,
    (scriptUpdate_rewrites_only_target
        "///$tab Main\r\nLOAD A;\r\n///$tab Other\r\nLOAD B;\r\n"
        "Other" "LOAD C;\r\n").2
      [("Main", "///$tab Main\r\nLOAD A;\r\n")]
      ("Other", "///$tab Other\r\nLOAD B;\r\n") []
      (by decide) (by decide) rfl⟩

/-- C10: when several sections share the target tab title, `script.update`
rewrites only the first one (lowest index in script order); every later
section with that same title is carried over unchanged inside the trailing
section list. -/
theorem scriptUpdate_duplicate_titles_first_only
    (qScript targetId propsQScript : String)
    (pre post : List (String × String)) (sec : String × String)
    (hparse : parseScriptSections qScript = pre ++ sec :: post)
    (hpre : ∀ a ∈ pre, a.1 ≠ targetId)
    (hsec : sec.1 = targetId)
    (_hdup : ∃ b ∈ post, b.1 = targetId) :
    scriptUpdate qScript targetId propsQScript =
      .ok (joinSections pre ++ ("///$tab " ++ targetId ++ "\r\n" ++ propsQScript)
        ++ joinSections post) :=
  scriptUpdate_found qScript targetId propsQScript pre post sec hparse hpre hsec

/-- Witness for C10 at a concrete script with two sections both titled
`"Main"`: only the first is rewritten, the second one survives verbatim. -/
theorem scriptUpdate_duplicate_titles_first_only_witness :
    (∃ b ∈ [("Main", "///$tab Main\r\nLOAD B;\r\n")], (b : String × String).1 = "Main") ∧
      scriptUpdate "///$tab Main\r\nLOAD A;\r\n///$tab Main\r\nLOAD B;\r\n"
          "Main" "LOAD C;\r\n"
        = .ok (joinSections [] ++ ("///$tab " ++ "Main" ++ "\r\n" ++ "LOAD C;\r\n")
            ++ joinSections [("Main", "///$tab Main\r\nLOAD B;\r\n")]) :=
  ⟨⟨("Main", "///$tab Main\r\nLOAD B;\r\n"), by decide, rfl⟩,
    scriptUpdate_duplicate_titles_first_only
      "///$tab Main\r\nLOAD A;\r\n///$tab Main\r\nLOAD B;\r\n" "Main" "LOAD C;\r\n"
      [] [("Main", "///$tab Main\r\nLOAD B;\r\n")]
      ("Main", "///$tab Main\r\nLOAD A;\r\n")
      (by decide) (by simp) rfl
      ⟨("Main", "///$tab Main\r\nLOAD B;\r\n"), by decide, rfl⟩⟩

end AppObjectImporter

namespace AppObjectImporter

/-- C5 (amended): updating a variable that is absent from the destination
falls back to `variable.add`, creating the variable; afterwards
`updateSingleItem` reports `updated = true` with `updateFailed = false`,
while the `imported` flag is untouched. -/
theorem variableUpdate_fallback_adds (store : List VarProps) (props : VarProps)
    (st : Status)
    (hmiss : ∀ v ∈ store, v.qName ≠ props.qName)
    (hnotdone : st.updated = false)
    (hnotfailed : st.updateFailed = false)
    (hupdatable : st.updatable = true) :
    variableUpdate store props none
        = .ok (store ++ [sanitizeVarProps { props with qIsScriptCreated := false }]) ∧
      (updateSingleItem st (variableUpdate store props none)).updated = true ∧
      (updateSingleItem st (variableUpdate store props none)).updateFailed = false ∧
      (updateSingleItem st (variableUpdate store props none)).imported = st.imported := by
  have hfind : store.find? (fun v => v.qName == props.qName) = none := by
    rw [List.find?_eq_none]
    intro v hv
    simpa using hmiss v hv
  have hany : (store.any fun v => v.qName == props.qName) = false := by
    rw [List.any_eq_false]
    intro v hv
    simpa using hmiss v hv
  have hadd : variableUpdate store props none
      = .ok (store ++ [sanitizeVarProps { props with qIsScriptCreated := false }]) := by
    simp [variableUpdate, hfind, variableAdd, sanitizeVarProps, hany]
  refine ⟨hadd, ?_, ?_, ?_⟩ <;>
    rw [hadd] <;>
    simp [updateSingleItem, hnotdone, hnotfailed, hupdatable]

/-- Witness for C5 (amended) at the concrete variable `"vToday"` and an
empty destination. -/
theorem variableUpdate_fallback_adds_witness :
    (∀ v ∈ ([] : List VarProps), v.qName ≠ vTodayProps.qName) ∧
      (variableUpdate [] vTodayProps none
          = .ok ([] ++ [sanitizeVarProps { vTodayProps with qIsScriptCreated := false }]) ∧
        (updateSingleItem pendingUpdateStatus (variableUpdate [] vTodayProps none)).updated
          = true ∧
        (updateSingleItem pendingUpdateStatus (variableUpdate [] vTodayProps none)).updateFailed
          = false ∧
        (updateSingleItem pendingUpdateStatus (variableUpdate [] vTodayProps none)).imported
          = pendingUpdateStatus.imported) :=
  ⟨by simp,
    variableUpdate_fallback_adds [] vTodayProps pendingUpdateStatus (by simp)
      rfl rfl rfl⟩

/-- Counterexample for C5 as stated: updating the absent variable
`"vToday"` does fall back to a create and does not fail, but afterwards the
status shows `updated = true` while `imported` stays `false` — the claim's
`imported = true` is wrong. -/
theorem variableUpdate_fallback_not_imported_counterexample :
    variableUpdate [] vTodayProps none
        = .ok [sanitizeVarProps { vTodayProps with qIsScriptCreated := false }] ∧
      (updateSingleItem pendingUpdateStatus (variableUpdate [] vTodayProps none)).updated
        = true ∧
      (updateSingleItem pendingUpdateStatus (variableUpdate [] vTodayProps none)).updateFailed
        = false ∧
      ¬ ((updateSingleItem pendingUpdateStatus (variableUpdate [] vTodayProps none)).imported
          = true) :=
  ⟨rfl, rfl, rfl, by decide⟩

end AppObjectImporter

namespace AppObjectImporter

theorem foldl_max_init_le (l : List SheetProps) :
    ∀ a : Nat, a ≤ l.foldl (fun x b => max x b.rank) a := by
  induction l with
  | nil => intro a; simp
  | cons hd tl ih =>
      intro a
      exact le_trans (Nat.le_max_left a hd.rank) (ih (max a hd.rank))

theorem rank_le_foldl_max (l : List SheetProps) :
    ∀ (a : Nat), ∀ s ∈ l, s.rank ≤ l.foldl (fun x b => max x b.rank) a := by
  induction l with
  | nil => intro a s hs; cases hs
  | cons hd tl ih =>
      intro a s hs
      rcases List.mem_cons.mp hs with rfl | hs
      · exact le_trans (Nat.le_max_right a s.rank) (foldl_max_init_le tl _)
      · exact ih _ s hs

/-- C6 (amended): importing a new sheet assigns it the maximum destination
rank plus one — which then exceeds every destination rank, placing the
sheet last — but only when that fold-computed maximum (seeded with 0) is
nonzero; when it is 0, the truthiness check skips the assignment and the
source rank is kept. -/
theorem sheetAdd_rank_assignment (destSheets : List SheetProps) (props : SheetProps) :
    (sheetsMaxRank destSheets ≠ 0 →
      (importSheetWrittenProps destSheets props).rank = sheetsMaxRank destSheets + 1 ∧
      ∀ s ∈ destSheets, s.rank < (importSheetWrittenProps destSheets props).rank) ∧
    (sheetsMaxRank destSheets = 0 →
      importSheetWrittenProps destSheets props = props) := by
  constructor
  · intro h
    have hrank : (importSheetWrittenProps destSheets props).rank
        = sheetsMaxRank destSheets + 1 := by
      simp [importSheetWrittenProps, sheetAddWrittenProps, importItemSheetOptions, h]
    refine ⟨hrank, ?_⟩
    intro s hs
    rw [hrank]
    exact Nat.lt_succ_of_le (rank_le_foldl_max destSheets 0 s hs)
  · intro h
    simp [importSheetWrittenProps, sheetAddWrittenProps, importItemSheetOptions, h]

/-- Witness for C6 (amended): with destination ranks `[0, 1, 2]` the
imported sheet gets rank 3 and sorts after every destination sheet. -/
theorem sheetAdd_rank_assignment_witness :
    sheetsMaxRank rankedSheets ≠ 0 ∧
      (importSheetWrittenProps rankedSheets rank5Sheet).rank = 3 ∧
      (importSheetWrittenProps rankedSheets rank5Sheet).rank
        = sheetsMaxRank rankedSheets + 1 ∧
      ∀ s ∈ rankedSheets, s.rank < (importSheetWrittenProps rankedSheets rank5Sheet).rank :=
  ⟨by decide, by decide,
    ((sheetAdd_rank_assignment rankedSheets rank5Sheet).1 (by decide)).1,
    ((sheetAdd_rank_assignment rankedSheets rank5Sheet).1 (by decide)).2⟩

/-- Counterexample for C6 as stated: with a single destination sheet of
rank 0 the claim demands rank `0 + 1 = 1`, but the computed maximum 0 is
falsy, the assignment is skipped, and the imported sheet keeps its source
rank 5. -/
theorem sheetAdd_rank_zero_max_counterexample :
    (importSheetWrittenProps [rank0Sheet] rank5Sheet).rank = 5 ∧
      sheetsMaxRank [rank0Sheet] + 1 = 1 ∧
      (importSheetWrittenProps [rank0Sheet] rank5Sheet).rank
        ≠ sheetsMaxRank [rank0Sheet] + 1 := by
  decide

end AppObjectImporter

namespace AppObjectImporter

/-- C7 (amended): the publish-metadata stripper `sanitizeObjectData`
removes the nine server-publish keys from `qMetaDef` and drops the `qMeta`
block while leaving the rest untouched, but it is applied only on the
variable add path; `sheet.add` writes the sheet's metadata unchanged. -/
theorem sanitize_only_in_variable_add (props : SheetProps)
    (options : SheetImportOptions) (store : List VarProps) (vprops : VarProps)
    (d : QData) :
    (sheetAddWrittenProps props options).meta = props.meta ∧
      (∀ store', variableAdd store vprops = .ok store' →
        store' = store ++ [sanitizeVarProps { vprops with qIsScriptCreated := false }]) ∧
      (sanitizeObjectData d).qMeta = none ∧
      (∀ kv ∈ (sanitizeObjectData d).qMetaDef, ¬ (kv.1 ∈ publishMetaKeys)) ∧
      (sanitizeObjectData d).rest = d.rest := by
  refine ⟨?_, ?_, rfl, ?_, rfl⟩
  · obtain ⟨tid, smr⟩ := options
    cases tid with
    | none =>
        by_cases h : smr ≠ 0 <;> simp [sheetAddWrittenProps, h]
    | some t => rfl
  · intro store' h
    simp only [variableAdd] at h
    split at h
    · exact absurd h (by simp)
    · simpa using h.symm
  · intro kv hkv
    have hmem := (List.mem_filter.mp hkv).2
    simpa using hmem

/-- Witness for C7 (amended) at a concrete published sheet and the concrete
variable `"vToday"`. -/
theorem sanitize_only_in_variable_add_witness :
    (sheetAddWrittenProps publishedSheetProps
        { targetId := none, sheetsMaxRank := 2 }).meta = publishedSheetProps.meta ∧
      ([sanitizeVarProps { vTodayProps with qIsScriptCreated := false }] : List VarProps)
        = [] ++ [sanitizeVarProps { vTodayProps with qIsScriptCreated := false }] :=
  ⟨(sanitize_only_in_variable_add publishedSheetProps
      { targetId := none, sheetsMaxRank := 2 } [] vTodayProps
      { qMetaDef := [], qMeta := none, rest := [] }).1,
    (sanitize_only_in_variable_add publishedSheetProps
      { targetId := none, sheetsMaxRank := 2 } [] vTodayProps
      { qMetaDef := [], qMeta := none, rest := [] }).2.1
      [sanitizeVarProps { vTodayProps with qIsScriptCreated := false }] rfl⟩

/-- Counterexample for C7 as stated: a sheet imported through
`$scope.importItem` keeps its `published` entry and its generated `qMeta`
block — the written properties are not stripped (they differ from their
sanitized form). -/
theorem sheetAdd_keeps_publish_meta_counterexample :
    ("published", "true") ∈ (importSheetWrittenProps [] publishedSheetProps).meta.qMetaDef ∧
      (importSheetWrittenProps [] publishedSheetProps).meta.qMeta = some "serverMeta" ∧
      sanitizeObjectData (importSheetWrittenProps [] publishedSheetProps).meta
        ≠ (importSheetWrittenProps [] publishedSheetProps).meta := by
  refine ⟨by decide, rfl, by decide⟩

end AppObjectImporter

namespace AppObjectImporter

theorem lookup_append {β : Type} (k : String) (l₁ l₂ : List (String × β)) :
    List.lookup k (l₁ ++ l₂)
      = ((List.lookup k l₁).orElse fun _ => List.lookup k l₂) := by
  induction l₁ with
  | nil => rfl
  | cons hd tl ih =>
      obtain ⟨k', v⟩ := hd
      simp only [List.cons_append, List.lookup]
      cases h : k == k'
      · simpa using ih
      · simp

end AppObjectImporter

namespace AppObjectImporter

/-- C8: for a non-empty identifier, the call after an `openApp` call with
the same identifier returns the reference-identical promise and leaves the
cache — including the list of issued engine opens — unchanged; this holds
whether or not the first promise has settled, since the cache stores the
promise itself. -/
theorem openApp_second_call_identical (c : AppCache) (appId : String)
    (h : appId ≠ "") :
    ∃ r c', openApp c (.byId appId) = (r, c') ∧
      openApp c' (.byId appId) = (r, c') := by
  by_cases hc : (List.lookup c.currAppId c.entries).isSome
  · cases hl : List.lookup appId c.entries with
    | some r =>
        refine ⟨r, c, ?_, ?_⟩ <;> simp [openApp, h, hc, hl]
    | none =>
        refine ⟨c.nextRef,
          { c with
            entries := c.entries ++ [(appId, c.nextRef)]
            nextRef := c.nextRef + 1
            opens := c.opens ++ [appId] }, ?_, ?_⟩
        · simp [openApp, h, hc, hl]
        · have hc2 : (List.lookup c.currAppId
              (c.entries ++ [(appId, c.nextRef)])).isSome := by
            rw [lookup_append]
            obtain ⟨v, hv⟩ := Option.isSome_iff_exists.mp hc
            simp [hv]
          have hl2 : List.lookup appId (c.entries ++ [(appId, c.nextRef)])
              = some c.nextRef := by
            rw [lookup_append, hl]
            simp [List.lookup]
          simp [openApp, h, hc2, hl2]
  · have hnone : List.lookup c.currAppId c.entries = none :=
      Option.not_isSome_iff_eq_none.mp hc
    have hcseed : (List.lookup c.currAppId
        (c.entries ++ [(c.currAppId, c.nextRef)])).isSome := by
      rw [lookup_append, hnone]
      simp [List.lookup]
    cases hl : List.lookup appId (c.entries ++ [(c.currAppId, c.nextRef)]) with
    | some r =>
        refine ⟨r,
          { c with
            entries := c.entries ++ [(c.currAppId, c.nextRef)]
            nextRef := c.nextRef + 1 }, ?_, ?_⟩
        · simp [openApp, h, hc, hl]
        · simp [openApp, h, hcseed, hl]
    | none =>
        refine ⟨c.nextRef + 1,
          { c with
            entries := (c.entries ++ [(c.currAppId, c.nextRef)])
              ++ [(appId, c.nextRef + 1)]
            nextRef := c.nextRef + 2
            opens := c.opens ++ [appId] }, ?_, ?_⟩
        · simp [openApp, h, hc, hl]
        · have hl0 : List.lookup appId c.entries = none ∧
              List.lookup appId [(c.currAppId, c.nextRef)] = none := by
            rw [lookup_append] at hl
            cases o : List.lookup appId c.entries with
            | some v => rw [o] at hl; simp at hl
            | none => rw [o] at hl; simpa using hl
          have hne : (appId == c.currAppId) = false := by
            have h2 := hl0.2
            simp only [List.lookup] at h2
            cases ho : appId == c.currAppId
            · rfl
            · rw [ho] at h2; simp at h2
          have hc3 : (List.lookup c.currAppId
              (c.entries ++ [(c.currAppId, c.nextRef), (appId, c.nextRef + 1)])).isSome
                = true := by
            rw [lookup_append, hnone]
            simp [List.lookup]
          have hl3 : List.lookup appId
              (c.entries ++ [(c.currAppId, c.nextRef), (appId, c.nextRef + 1)])
                = some (c.nextRef + 1) := by
            rw [lookup_append, hl0.1]
            simp [List.lookup, hne]
          simp [openApp, h, hc3, hl3]

/-- Witness for C8 at a concrete empty cache and identifier `"app2"`. -/
theorem openApp_second_call_identical_witness :
    ∃ r c', openApp
        { currAppId := "app1", currAppRef := 0, entries := [("app1", 0)]
          nextRef := 1, opens := [] } (.byId "app2") = (r, c') ∧
      openApp c' (.byId "app2") = (r, c') :=
  openApp_second_call_identical
    { currAppId := "app1", currAppRef := 0, entries := [("app1", 0)]
      nextRef := 1, opens := [] } "app2" (by decide)

end AppObjectImporter

namespace AppObjectImporter

theorem takeWhile_append_cons {α : Type} (p : α → Bool) (l₁ : List α) (b : α)
    (l₂ : List α) (h1 : ∀ x ∈ l₁, p x = true) (hb : p b = false) :
    (l₁ ++ b :: l₂).takeWhile p = l₁ := by
  induction l₁ with
  | nil => simp [List.takeWhile_cons, hb]
  | cons a l ih =>
      have ha : p a = true := h1 a (List.mem_cons_self a l)
      simp [List.takeWhile_cons, ha,
        ih fun x hx => h1 x (List.mem_cons_of_mem a hx)]

theorem drop_takeWhile_length {α : Type} (p : α → Bool) (l : List α) :
    l.drop (l.takeWhile p).length = l.dropWhile p := by
  induction l with
  | nil => rfl
  | cons a l ih =>
      rw [List.takeWhile_cons, List.dropWhile_cons]
      by_cases hpa : p a = true
      · rw [if_pos hpa, if_pos hpa]
        simpa using ih
      · rw [if_neg hpa, if_neg hpa]
        rfl

theorem matchSelBlockAt_some_headSelBlock (field cs g : List Char)
    (h : matchSelBlockAt field cs = some g) : HeadSelBlock field cs := by
  cases cs with
  | nil => simp [matchSelBlockAt] at h
  | cons c rest =>
      simp only [matchSelBlockAt] at h
      by_cases hcond : (c = '<' ∨ c = ',') ∧ (field ++ ['=', '{']).isPrefixOf rest = true
      · rw [if_pos hcond] at h
        obtain ⟨hopen, hpre⟩ := hcond
        obtain ⟨t, ht⟩ := List.isPrefixOf_iff_prefix.mp hpre
        have hlen : (field ++ ['=', '{']).length = field.length + 2 := by simp
        have hdropt : rest.drop (field.length + 2) = t := by
          rw [← ht, ← hlen, List.drop_left]
        rw [hdropt, drop_takeWhile_length] at h
        cases hdw : t.dropWhile fun x => x ≠ '}' with
        | nil => rw [hdw] at h; cases h
        | cons b tail1 =>
            rw [hdw] at h
            cases tail1 with
            | nil => cases h
            | cons d suf =>
                have h' : (if (t.takeWhile fun x => x ≠ '}') ≠ [] ∧ b = '}'
                    ∧ (d = '>' ∨ d = ',') then
                      some (t.takeWhile fun x => x ≠ '}')
                    else none) = some g := h
                by_cases hcond2 : (t.takeWhile fun x => x ≠ '}') ≠ [] ∧ b = '}'
                    ∧ (d = '>' ∨ d = ',')
                · obtain ⟨hne, hb, hd⟩ := hcond2
                  have hteq : t = (t.takeWhile fun x => x ≠ '}') ++ '}' :: d :: suf := by
                    conv_lhs => rw [← List.takeWhile_append_dropWhile
                      (fun x => decide (x ≠ '}')) t]
                    rw [hdw, hb]
                  have hrest : rest = field ++ '=' :: '{'
                      :: ((t.takeWhile fun x => x ≠ '}') ++ '}' :: d :: suf) := by
                    rw [← ht]
                    conv_lhs => rw [hteq]
                    simp
                  refine ⟨t.takeWhile fun x => x ≠ '}', suf, c, d, ?_, hopen, hne,
                    ?_, hd⟩
                  · rw [hrest]
                  · intro x hx
                    have := List.mem_takeWhile_imp hx
                    simpa using this
                · rw [if_neg hcond2] at h'
                  cases h'
      · rw [if_neg hcond] at h
        cases h

theorem headSelBlock_matchSelBlockAt (field cs : List Char)
    (h : HeadSelBlock field cs) : ∃ g, matchSelBlockAt field cs = some g := by
  obtain ⟨content, suf, o, d, heq, ho, hne, hnc, hd⟩ := h
  subst heq
  simp only [matchSelBlockAt]
  have hpre : (field ++ ['=', '{']).isPrefixOf
      (field ++ '=' :: '{' :: (content ++ '}' :: d :: suf)) = true := by
    rw [List.isPrefixOf_iff_prefix]
    exact ⟨content ++ '}' :: d :: suf, by simp⟩
  rw [if_pos ⟨ho, hpre⟩]
  have hstep : field ++ '=' :: '{' :: (content ++ '}' :: d :: suf)
      = (field ++ ['=', '{']) ++ (content ++ '}' :: d :: suf) := by simp
  have hlen : (field ++ ['=', '{']).length = field.length + 2 := by simp
  have hdrop : (field ++ '=' :: '{' :: (content ++ '}' :: d :: suf)).drop
      (field.length + 2) = content ++ '}' :: d :: suf := by
    rw [hstep, ← hlen, List.drop_left]
  rw [hdrop]
  have htake : ((content ++ '}' :: d :: suf).takeWhile fun x => x ≠ '}')
      = content := by
    apply takeWhile_append_cons
    · intro x hx
      simpa using hnc x hx
    · simp
  rw [htake]
  have hdropc : (content ++ '}' :: d :: suf).drop content.length
      = '}' :: d :: suf := List.drop_left content _
  rw [hdropc]
  refine ⟨content, ?_⟩
  show (if content ≠ [] ∧ '}' = '}' ∧ (d = '>' ∨ d = ',') then some content
    else none) = some content
  rw [if_pos ⟨hne, rfl, hd⟩]

theorem hasSelectionBlock_nil (field : List Char) :
    ¬ HasSelectionBlock [] field := by
  rintro ⟨pre, tail2, heq, content, suf, o, d, heq2, _⟩
  have hnil := List.append_eq_nil.mp heq.symm
  rw [hnil.2] at heq2
  cases heq2

theorem hasSelectionBlock_cons (field : List Char) (c : Char) (rest : List Char) :
    HasSelectionBlock (c :: rest) field ↔
      HeadSelBlock field (c :: rest) ∨ HasSelectionBlock rest field := by
  constructor
  · rintro ⟨pre, tail2, heq, hblock⟩
    cases pre with
    | nil =>
        left
        rw [List.nil_append] at heq
        rwa [heq]
    | cons p ps =>
        right
        rw [List.cons_append] at heq
        injection heq with _ h2
        exact ⟨ps, tail2, h2, hblock⟩
  · rintro (h | ⟨pre, tail2, heq, hblock⟩)
    · exact ⟨[], c :: rest, rfl, h⟩
    · exact ⟨c :: pre, tail2, by rw [heq, List.cons_append], hblock⟩

theorem findSelBlock_eq_none_iff (field : List Char) :
    ∀ cs, findSelBlock field cs = none ↔ ¬ HasSelectionBlock cs field := by
  intro cs
  induction cs with
  | nil => simp [findSelBlock, hasSelectionBlock_nil field]
  | cons c rest ih =>
      simp only [findSelBlock]
      cases m : matchSelBlockAt field (c :: rest) with
      | some g =>
          have hh := matchSelBlockAt_some_headSelBlock field (c :: rest) g m
          exact iff_of_false (by simp)
            (not_not_intro ((hasSelectionBlock_cons field c rest).mpr (Or.inl hh)))
      | none =>
          rw [ih, hasSelectionBlock_cons]
          have hnb : ¬ HeadSelBlock field (c :: rest) := by
            intro hb
            obtain ⟨g, hg⟩ := headSelBlock_matchSelBlockAt field (c :: rest) hb
            rw [m] at hg
            cases hg
          constructor
          · intro h
            rintro (hb | hr)
            · exact hnb hb
            · exact h hr
          · intro h hr
            exact h (Or.inr hr)

end AppObjectImporter

namespace AppObjectImporter

/-- C9: `getValuesFromSetAnalysis` succeeds exactly when the set expression
contains a selection block for the field matching `(<|,)field={([^}]+)(}>|},)`;
for every set string with no such block the regex match is null and the
function throws on `matches[2]` (modelled as `none`), the exception escaping
to the bookmark-import caller. -/
theorem getValuesFromSetAnalysis_none_iff (set fieldName : String) :
    getValuesFromSetAnalysis set fieldName = none ↔
      ¬ HasSelectionBlock set.data fieldName.data := by
  unfold getValuesFromSetAnalysis
  rw [Option.map_eq_none']
  exact findSelBlock_eq_none_iff _ _

/-- Witness for C9 at a concrete set expression that selects a different
field: the function throws (returns `none`), so no selection block for
`"Field"` is present. -/
theorem getValuesFromSetAnalysis_none_iff_witness :
    ¬ HasSelectionBlock "<Region=\x7b'A','B'\x7d>".data "Field".data :=
  (getValuesFromSetAnalysis_none_iff "<Region=\x7b'A','B'\x7d>" "Field").mp (by decide)

end AppObjectImporter
